import Mathlib

/-!
Verification of the native-object registry and value-conversion core
(`v8pp/to_v8.hpp`).

The C++ code is shallowly embedded:

* a native object identity (`T*` address) is a `Ptr := Nat`;
* a persistent script handle (`v8::Persistent<v8::Value>`) is an opaque
  `Handle := Nat`; an empty `v8::Handle<v8::Value>` result is `Option.none`;
* `boost::unordered_map` tables are association lists whose operations
  mirror the container semantics used by the code: `insert` adds an entry
  only when the key is absent, `erase` of a found iterator removes that
  entry, `find` returns the first entry with the key;
* the observable side effects of removal (`Persistent::Dispose` and the
  `destroy` callback) are recorded as an `Event` trace, in program order;
* the `destroy` function pointer is abstracted by a `Bool` saying whether
  it is non-null.
-/

namespace V8pp

/-- Native object identity: a `T*` address used as registry key. -/
abbrev Ptr := Nat

/-- A persistent script handle, `v8::Persistent<v8::Value>`, kept opaque. -/
abbrev Handle := Nat

/-- Observable side effects of registry removal, in program order:
`dispose h` models `it->second.Dispose()`, `destroy p` models the
`destroy(object)` callback. -/
inductive Event where
  | dispose (h : Handle)
  | destroy (p : Ptr)
deriving DecidableEq, Repr

/-- A `boost::unordered_map` keyed by `α`, as an association list.
Operations below keep keys unique, matching the container. -/
abbrev AssocMap (α β : Type) := List (α × β)

/-- Lookup `m.find(k)` on the map: the first entry with key `k`, if any. -/
def lookupKey {α β : Type} [DecidableEq α] : AssocMap α β → α → Option β
  | [], _ => none
  | (q, v) :: rest, k => if q = k then some v else lookupKey rest k

/-- Erasure `m.erase(it)` where `it` is the iterator found for key `k`:
removes the (first) entry with key `k`. -/
def eraseKey {α β : Type} [DecidableEq α] : AssocMap α β → α → AssocMap α β
  | [], _ => []
  | (q, v) :: rest, k => if q = k then rest else (q, v) :: eraseKey rest k

/-- Insertion `m.insert(make_pair(k, v))`: inserts only when the key is absent
(`std`/`boost` map insert never overwrites an existing entry). -/
def insertPair {α β : Type} [DecidableEq α] (m : AssocMap α β) (k : α) (v : β) :
    AssocMap α β :=
  match lookupKey m k with
  | some _ => m
  | none => (k, v) :: m

/-- The map has pairwise distinct keys. -/
abbrev keysNodup {α β : Type} (m : AssocMap α β) : Prop :=
  (m.map Prod.fst).Nodup

/-- The per-type registry table `boost::unordered_map<T*, Persistent<Value>>`
(`object_registry<T>::objects`, the default strategy without
`V8PP_USE_GLOBAL_OBJECTS_REGISTRY`). -/
abbrev Objects := AssocMap Ptr Handle

namespace object_registry

/-- Operation `object_registry<T>::add(object, value)` (per-type strategy):
`items().insert(std::make_pair(object, value))`. -/
def add (m : Objects) (p : Ptr) (h : Handle) : Objects :=
  insertPair m p h

/-- Operation `object_registry<T>::remove(object, destroy)` (per-type strategy):
look the object up; if present, `Dispose` the handle, erase the entry, then
call `destroy(object)` when the callback is non-null.  Returns the updated
table and the emitted events in program order. -/
def remove (m : Objects) (p : Ptr) (d : Bool) : Objects × List Event :=
  match lookupKey m p with
  | none => (m, [])
  | some h => (eraseKey m p, Event.dispose h :: if d then [Event.destroy p] else [])

/-- Operation `object_registry<T>::find(native)`: an empty `v8::Handle<v8::Value>`
result (modelled `none`) unless the table holds an entry for the object. -/
def find (m : Objects) (p : Ptr) : Option Handle :=
  match lookupKey m p with
  | none => none
  | some h => some h

/-- Operation `object_registry<T>::remove_all(destroy)` (per-type strategy):
`while (!items().empty()) remove(items().begin()->first, destroy);`. -/
def remove_all : Objects → Bool → Objects × List Event
  | [], _ => ([], [])
  | (p, h0) :: rest, d =>
    let step := remove ((p, h0) :: rest) p d
    let tail := remove_all step.1 d
    (tail.1, step.2 ++ tail.2)
termination_by m _ => m.length
decreasing_by
  simp only [remove, lookupKey, eraseKey, if_pos rfl, if_true, List.length_cons]
  omega

end object_registry

/-- The conversion rule for class-instance pointers,
`to_v8(T const* src) = object_registry<T>::find(src)`. -/
def to_v8_class_ptr (m : Objects) (p : Ptr) : Option Handle :=
  object_registry.find m p

/-- A class type `T`, identified by a tag, for the global-registry strategy
where several instantiations `object_registry<T>` share one table. -/
abbrev TypeTag := Nat

/-- Insertion `unordered_set::insert`: adds the element when absent. -/
def setInsert (l : List Ptr) (p : Ptr) : List Ptr :=
  if p ∈ l then l else p :: l

/-- Erasure `unordered_set::erase(p)`: removes the (first) occurrence of `p`. -/
def setErase : List Ptr → Ptr → List Ptr
  | [], _ => []
  | q :: rest, p => if q = p then rest else q :: setErase rest p

/-- Process state of the `V8PP_USE_GLOBAL_OBJECTS_REGISTRY` strategy:
the single address-keyed table `global_registry_objects_` shared by all
types, plus the per-type `instances()` sets of `T*` addresses. -/
structure GlobalState where
  global_registry_objects : Objects
  instances : TypeTag → List Ptr

/-- The empty initial global-strategy state. -/
def GlobalState.init : GlobalState :=
  { global_registry_objects := [], instances := fun _ => [] }

namespace global_registry

/-- Operation `object_registry<T>::add` under the global strategy:
`instances().insert(object); items().insert(make_pair(object, value));`
where `items()` is the shared global table. -/
def add (s : GlobalState) (τ : TypeTag) (p : Ptr) (h : Handle) : GlobalState :=
  { global_registry_objects := insertPair s.global_registry_objects p h,
    instances := fun τ2 => if τ2 = τ then setInsert (s.instances τ) p else s.instances τ2 }

/-- Operation `object_registry<T>::remove` under the global strategy:
`instances().erase(object)` happens unconditionally, then the shared table
is consulted and, when the entry exists, disposed, erased and the callback
run. -/
def remove (s : GlobalState) (τ : TypeTag) (p : Ptr) (d : Bool) : GlobalState × List Event :=
  let insts2 : TypeTag → List Ptr :=
    fun τ2 => if τ2 = τ then setErase (s.instances τ) p else s.instances τ2
  match lookupKey s.global_registry_objects p with
  | none => ({ global_registry_objects := s.global_registry_objects, instances := insts2 }, [])
  | some h =>
    ({ global_registry_objects := eraseKey s.global_registry_objects p, instances := insts2 },
     Event.dispose h :: if d then [Event.destroy p] else [])

/-- Operation `object_registry<T>::find` under the global strategy: a lookup in the
shared table (the `T*` key is passed as `void*`). -/
def find (s : GlobalState) (p : Ptr) : Option Handle :=
  match lookupKey s.global_registry_objects p with
  | none => none
  | some h => some h

/-- Operation `object_registry<T>::remove_all(destroy)` under the global
strategy: `while (!instances().empty()) remove(*instances().begin(), destroy);`. -/
def remove_all (s : GlobalState) (τ : TypeTag) (d : Bool) : GlobalState × List Event :=
  match hi : s.instances τ with
  | [] => (s, [])
  | p :: _ =>
    let step := remove s τ p d
    let tail := remove_all step.1 τ d
    (tail.1, step.2 ++ tail.2)
termination_by (s.instances τ).length
decreasing_by
  have hrem : (remove s τ p d).1.instances τ = setErase (s.instances τ) p := by
    unfold remove
    cases lookupKey s.global_registry_objects p <;> simp
  rw [hrem, hi]
  simp only [setErase, if_pos rfl, if_true, List.length_cons]
  omega

end global_registry

/-- One registry operation of a program run, tagged with the class type `T`
whose `object_registry<T>` member is called. -/
inductive Op where
  | addOp (τ : TypeTag) (p : Ptr) (h : Handle)
  | removeOp (τ : TypeTag) (p : Ptr) (d : Bool)
  | findOp (τ : TypeTag) (p : Ptr)
deriving DecidableEq, Repr

/-- The object identity an operation is about. -/
def Op.ptr : Op → Ptr
  | addOp _ p _ => p
  | removeOp _ p _ => p
  | findOp _ p => p

/-- The class type an operation is tagged with. -/
def Op.tag : Op → TypeTag
  | addOp τ _ _ => τ
  | removeOp τ _ _ => τ
  | findOp τ _ => τ

/-- Run a sequence of operations against the per-type strategy (a family of
tables, one per type).  Observations: the `find` results in order, and the
event trace of all removals. -/
def runPerType : (TypeTag → Objects) → List Op → List (Option Handle) × List Event
  | _, [] => ([], [])
  | s, Op.addOp τ p h :: rest =>
    runPerType (fun τ2 => if τ2 = τ then object_registry.add (s τ) p h else s τ2) rest
  | s, Op.removeOp τ p d :: rest =>
    let step := object_registry.remove (s τ) p d
    let r := runPerType (fun τ2 => if τ2 = τ then step.1 else s τ2) rest
    (r.1, step.2 ++ r.2)
  | s, Op.findOp τ p :: rest =>
    let r := runPerType s rest
    (object_registry.find (s τ) p :: r.1, r.2)

/-- Run the same sequence against the global-table strategy. -/
def runGlobal : GlobalState → List Op → List (Option Handle) × List Event
  | _, [] => ([], [])
  | s, Op.addOp τ p h :: rest => runGlobal (global_registry.add s τ p h) rest
  | s, Op.removeOp τ p d :: rest =>
    let step := global_registry.remove s τ p d
    let r := runGlobal step.1 rest
    (r.1, step.2 ++ r.2)
  | s, Op.findOp _ p :: rest =>
    let r := runGlobal s rest
    (global_registry.find s p :: r.1, r.2)

/-- Simulation relation between the two storage strategies, for a type
assignment `t` giving each object identity its class type: the global table
agrees with the table of the owning type on every key, foreign tables are empty
at every key, and all tables have unique keys. -/
def SimInv (t : Ptr → TypeTag) (sp : TypeTag → Objects) (sg : GlobalState) : Prop :=
  (∀ p, lookupKey sg.global_registry_objects p = lookupKey (sp (t p)) p)
  ∧ (∀ τ p, τ ≠ t p → lookupKey (sp τ) p = none)
  ∧ keysNodup sg.global_registry_objects
  ∧ (∀ τ, keysNodup (sp τ))

/-- The event trace of draining a table front to back: for each entry, the
handle is disposed and then, when the callback is non-null, the object is
destroyed. -/
def drainTrace : Objects → Bool → List Event
  | [], _ => []
  | (p, h) :: rest, d =>
    Event.dispose h :: ((if d then [Event.destroy p] else []) ++ drainTrace rest d)

/-- How many times the trace destroys the object `p`. -/
def countDestroy : List Event → Ptr → Nat
  | [], _ => 0
  | Event.destroy q :: rest, p => (if q = p then 1 else 0) + countDestroy rest p
  | Event.dispose _ :: rest, p => countDestroy rest p

/-- A script-side value produced by conversion of a scalar or string. -/
inductive SVal where
  | int32 (n : Int)
  | num (x : Int)
  | str (s : String)
  | boolean (b : Bool)
deriving DecidableEq, Repr

/-- A script array value: `v8::Array::New(len)` records the length;
`Set(idx, v)` prepends a slot binding (the freshest binding for an index is
the visible one) and grows the length when the index is past the end. -/
structure V8Array where
  len : Nat
  slots : AssocMap Nat SVal
deriving DecidableEq, Repr

/-- Constructor `v8::Array::New(n)`: pre-sized, no element slots set. -/
def V8Array.new (n : Nat) : V8Array :=
  { len := n, slots := [] }

/-- Indexed store `array->Set(i, v)`. -/
def V8Array.set (a : V8Array) (i : Nat) (v : SVal) : V8Array :=
  { len := max a.len (i + 1), slots := (i, v) :: a.slots }

/-- Indexed read `array->Get(i)`: the freshest value stored at index `i`, if any. -/
def V8Array.get (a : V8Array) (i : Nat) : Option SVal :=
  lookupKey a.slots i

/-- A script object value: `v8::Object::New()` plus `Set(key, value)`
bindings, freshest first. -/
structure V8Object where
  props : AssocMap SVal SVal
deriving DecidableEq, Repr

/-- Property store `object->Set(k, v)`: the new binding shadows any older one for `k`. -/
def V8Object.set (o : V8Object) (k v : SVal) : V8Object :=
  { props := (k, v) :: o.props }

/-- Property read `object->Get(k)`: the freshest value bound to `k`, if any. -/
def V8Object.get (o : V8Object) (k : SVal) : Option SVal :=
  lookupKey o.props k

/-- Conversion `to_v8(std::string const&) = String::New(data, length)`. -/
def to_v8_string (s : String) : SVal :=
  SVal.str s

/-- Conversion `to_v8(char const* src) = String::New(src ? src : "")`; a null pointer
is `none`. -/
def to_v8_c_str (src : Option String) : SVal :=
  match src with
  | some s => SVal.str s
  | none => SVal.str ""

/-- Conversion `to_v8(int32_t) = Int32::New(src)`. -/
def to_v8_int32 (n : Int) : SVal :=
  SVal.int32 n

/-- Conversion `to_v8(bool) = Boolean::New(src)`. -/
def to_v8_bool (b : Bool) : SVal :=
  SVal.boolean b

/-- The loop of the random-access `to_v8(begin, end)`:
`for (uint32_t idx = 0; begin != end; ++begin, ++idx) result->Set(idx, to_v8(*begin));`
over the remaining elements, starting at `idx`. -/
def to_v8_range_loop {α : Type} (conv : α → SVal) : V8Array → Nat → List α → V8Array
  | a, _, [] => a
  | a, idx, x :: xs => to_v8_range_loop conv (a.set idx (conv x)) (idx + 1) xs

/-- Conversion `to_v8(Iterator begin, Iterator end)` for random-access iterators:
`Array::New(end - begin)` pre-sized, then the element loop.  The iterator
range is the list of elements in traversal order, `conv` the element
conversion `to_v8(*begin)`. -/
def to_v8_range {α : Type} (conv : α → SVal) (l : List α) : V8Array :=
  to_v8_range_loop conv (V8Array.new l.length) 0 l

/-- Conversion `to_v8(std::vector<T> const&) = to_v8(src.begin(), src.end())`, a
random-access range. -/
def to_v8_vector {α : Type} (conv : α → SVal) (l : List α) : V8Array :=
  to_v8_range conv l

/-- The loop of `to_v8(std::map const&)`:
`result->Set(to_v8(it->first), to_v8(it->second))` for each pair. -/
def to_v8_map_loop {κ ν : Type} (ck : κ → SVal) (cv : ν → SVal) :
    V8Object → List (κ × ν) → V8Object
  | o, [] => o
  | o, e :: rest => to_v8_map_loop ck cv (o.set (ck e.1) (cv e.2)) rest

/-- Conversion `to_v8(std::map<Key, Value> const&)`: `Object::New()` then one `Set`
per pair; `l` is the pair sequence of the map in key order, `ck`/`cv` the key
and value conversions. -/
def to_v8_map {κ ν : Type} (ck : κ → SVal) (cv : ν → SVal) (l : List (κ × ν)) : V8Object :=
  to_v8_map_loop ck cv { props := [] } l

/-- Modelled from the spec: the later-wins property rule for mapping
conversion — the property named `q` holds the converted value of the last
pair whose converted key is `q`.  Stated from the words of the table row
for ordered mappings; compared below with `to_v8_map`, which is translated
from the source. -/
def lastWins {κ ν : Type} (ck : κ → SVal) (cv : ν → SVal) (l : List (κ × ν)) (q : SVal) :
    Option SVal :=
  (l.reverse.find? fun e => decide (ck e.1 = q)).map fun e => cv e.2

/-!
Helper lemmas about the association-list container operations.
-/

theorem lookupKey_isSome_iff_mem {α β : Type} [DecidableEq α] (m : AssocMap α β) (k : α) :
    (lookupKey m k).isSome = true ↔ k ∈ m.map Prod.fst := by
  induction m with
  | nil => simp [lookupKey]
  | cons e rest ih =>
    obtain ⟨a, b⟩ := e
    by_cases hak : a = k
    · subst hak
      simp [lookupKey]
    · have hl : lookupKey ((a, b) :: rest) k = lookupKey rest k := by
        simp [lookupKey, hak]
      have hka : ¬ k = a := fun hh => hak hh.symm
      rw [hl, List.map_cons, List.mem_cons, ih]
      simp [hka]

theorem lookupKey_eq_none_iff {α β : Type} [DecidableEq α] (m : AssocMap α β) (k : α) :
    lookupKey m k = none ↔ k ∉ m.map Prod.fst := by
  rw [← lookupKey_isSome_iff_mem]
  cases lookupKey m k <;> simp

theorem insertPair_of_present {α β : Type} [DecidableEq α] (m : AssocMap α β) (k : α)
    (v w : β) (hp : lookupKey m k = some w) : insertPair m k v = m := by
  unfold insertPair
  rw [hp]

theorem insertPair_of_absent {α β : Type} [DecidableEq α] (m : AssocMap α β) (k : α)
    (v : β) (hp : lookupKey m k = none) : insertPair m k v = (k, v) :: m := by
  unfold insertPair
  rw [hp]

theorem lookupKey_insertPair_ne {α β : Type} [DecidableEq α] (m : AssocMap α β) (k q : α)
    (v : β) (hne : q ≠ k) : lookupKey (insertPair m k v) q = lookupKey m q := by
  unfold insertPair
  cases hl : lookupKey m k with
  | some w => rfl
  | none => simp [lookupKey, Ne.symm hne]

theorem lookupKey_insertPair_self {α β : Type} [DecidableEq α] (m : AssocMap α β) (k : α)
    (v : β) : lookupKey (insertPair m k v) k = some ((lookupKey m k).getD v) := by
  unfold insertPair
  cases hl : lookupKey m k with
  | some w => simp [hl]
  | none => simp [lookupKey]

theorem lookupKey_eraseKey_ne {α β : Type} [DecidableEq α] (m : AssocMap α β) (k q : α)
    (hne : q ≠ k) : lookupKey (eraseKey m k) q = lookupKey m q := by
  induction m with
  | nil => rfl
  | cons e rest ih =>
    obtain ⟨a, b⟩ := e
    by_cases hak : a = k
    · subst hak
      simp [eraseKey, lookupKey, Ne.symm hne]
    · by_cases haq : a = q
      · subst haq
        simp [eraseKey, hak, lookupKey]
      · simp [eraseKey, hak, lookupKey, haq, ih]

theorem eraseKey_sublist {α β : Type} [DecidableEq α] (m : AssocMap α β) (k : α) :
    (eraseKey m k).Sublist m := by
  induction m with
  | nil => simp [eraseKey]
  | cons e rest ih =>
    obtain ⟨a, b⟩ := e
    by_cases hak : a = k
    · subst hak
      simp only [eraseKey, if_pos rfl]
      exact List.sublist_cons_self _ _
    · simp only [eraseKey, hak, if_false]
      exact ih.cons₂ _

theorem lookupKey_eraseKey_self {α β : Type} [DecidableEq α] (m : AssocMap α β) (k : α)
    (hnd : keysNodup m) : lookupKey (eraseKey m k) k = none := by
  induction m with
  | nil => rfl
  | cons e rest ih =>
    obtain ⟨a, b⟩ := e
    have hnd2 : keysNodup rest := by
      simpa [keysNodup] using ((List.nodup_cons.1 hnd).2)
    by_cases hak : a = k
    · subst hak
      have hout : a ∉ rest.map Prod.fst := (List.nodup_cons.1 hnd).1
      simp only [eraseKey, if_pos rfl]
      exact (lookupKey_eq_none_iff rest a).2 hout
    · simp only [eraseKey, hak, if_false, lookupKey]
      exact ih hnd2

theorem keysNodup_insertPair {α β : Type} [DecidableEq α] (m : AssocMap α β) (k : α)
    (v : β) (hnd : keysNodup m) : keysNodup (insertPair m k v) := by
  unfold insertPair
  cases hl : lookupKey m k with
  | some w => exact hnd
  | none =>
    have hout : k ∉ m.map Prod.fst := (lookupKey_eq_none_iff m k).1 hl
    unfold keysNodup
    rw [List.map_cons]
    exact List.nodup_cons.2 ⟨hout, hnd⟩

theorem keysNodup_eraseKey {α β : Type} [DecidableEq α] (m : AssocMap α β) (k : α)
    (hnd : keysNodup m) : keysNodup (eraseKey m k) :=
  List.Nodup.sublist ((eraseKey_sublist m k).map Prod.fst) hnd

theorem not_mem_setErase_self (l : List Ptr) (p : Ptr) (hnd : l.Nodup) :
    p ∉ setErase l p := by
  induction l with
  | nil => simp [setErase]
  | cons a rest ih =>
    obtain ⟨hout, hnd2⟩ := List.nodup_cons.1 hnd
    by_cases hap : a = p
    · subst hap
      simpa [setErase] using hout
    · simp only [setErase, hap, if_false]
      intro hmem
      rcases List.mem_cons.1 hmem with hpa | hrest
      · exact hap hpa.symm
      · exact ih hnd2 hrest

theorem object_registry_find_eq (m : Objects) (p : Ptr) :
    object_registry.find m p = lookupKey m p := by
  unfold object_registry.find
  cases lookupKey m p <;> rfl

theorem global_registry_find_eq (s : GlobalState) (p : Ptr) :
    global_registry.find s p = lookupKey s.global_registry_objects p := by
  unfold global_registry.find
  cases lookupKey s.global_registry_objects p <;> rfl

/-- Claim C1: `object_registry<T>::find(o)` yields a non-empty handle exactly
when `o` is currently registered in the table (the table state is mutated
only by `add`, `remove` and `remove_all`, which are the only functions
returning a new table; `find` is read-only by construction).  Consequently
`to_v8(T const*)` on an unregistered pointer yields the empty-handle
sentinel `none`, never an error. -/
theorem find_isSome_iff_registered (m : Objects) (p : Ptr) :
    ((object_registry.find m p).isSome = true ↔ p ∈ m.map Prod.fst)
    ∧ (p ∉ m.map Prod.fst → to_v8_class_ptr m p = none) := by
  constructor
  · rw [object_registry_find_eq]
    exact lookupKey_isSome_iff_mem m p
  · intro hmem
    unfold to_v8_class_ptr
    rw [object_registry_find_eq]
    exact (lookupKey_eq_none_iff m p).2 hmem

/-- Claim C1, witness: in the table holding only object 1, object 2 is
unregistered and converts to the empty sentinel. -/
theorem find_isSome_iff_registered_witness :
    2 ∉ ([((1 : Ptr), (5 : Handle))] : Objects).map Prod.fst
    ∧ to_v8_class_ptr [(1, 5)] 2 = none :=
  ⟨by decide, (find_isSome_iff_registered [(1, 5)] 2).2 (by decide)⟩

/-- Claim C3, counterexample: registering object 1 with handle 10 and then
again with handle 20 does not make `find` return the second handle —
`unordered_map::insert` never overwrites an existing entry, so the second
`add` is a silent no-op on the table and `find` still returns 10. -/
theorem add_twice_counterexample :
    ¬ object_registry.find
        (object_registry.add (object_registry.add [] 1 10) 1 20) 1 = some 20 := by
  decide

/-- Claim C3, amended: if `add(o, h1)` is called and then `add(o, h2)` is
called again for the same object identity `o`, the second `add` silently
leaves the first entry in place (map insert does not overwrite an existing
key, and the auxiliary identity set of the global strategy does not detect
the duplicate), so `find(o)` afterwards returns `h1`; `h2` is never stored.
This holds in both storage strategies. -/
theorem add_twice_keeps_first (m : Objects) (s : GlobalState) (τ : TypeTag) (p : Ptr)
    (h1 h2 : Handle) (habs : lookupKey m p = none)
    (habsg : lookupKey s.global_registry_objects p = none) :
    object_registry.find (object_registry.add (object_registry.add m p h1) p h2) p = some h1
    ∧ global_registry.find (global_registry.add (global_registry.add s τ p h1) τ p h2) p
        = some h1 := by
  have key : ∀ m0 : Objects, lookupKey m0 p = none →
      lookupKey (insertPair (insertPair m0 p h1) p h2) p = some h1 := by
    intro m0 h0
    have l1 : lookupKey (insertPair m0 p h1) p = some h1 := by
      rw [lookupKey_insertPair_self, h0]
      rfl
    rw [insertPair_of_present _ _ _ _ l1]
    exact l1
  constructor
  · rw [object_registry_find_eq]
    exact key m habs
  · rw [global_registry_find_eq]
    simp only [global_registry.add]
    exact key s.global_registry_objects habsg

/-- Claim C3, amended witness: a fresh object registered twice keeps its
first handle under both strategies. -/
theorem add_twice_keeps_first_witness :
    lookupKey ([] : Objects) 1 = none
    ∧ object_registry.find
        (object_registry.add (object_registry.add [] 1 10) 1 20) 1 = some 10 :=
  ⟨by decide,
   (add_twice_keeps_first [] GlobalState.init 0 1 10 20 (by decide) (by decide)).1⟩

/-- Claim C6: removing an unregistered object is a silent no-op — the table
is returned unchanged and the event trace is empty (no handle disposed, no
callback invoked). -/
theorem remove_unregistered_noop (m : Objects) (p : Ptr) (d : Bool)
    (hmiss : lookupKey m p = none) :
    object_registry.remove m p d = (m, []) := by
  unfold object_registry.remove
  rw [hmiss]

/-- Claim C6, witness: removing the unregistered object 2 from the table
holding only object 1 changes nothing and emits no events. -/
theorem remove_unregistered_noop_witness :
    lookupKey ([((1 : Ptr), (5 : Handle))] : Objects) 2 = none
    ∧ object_registry.remove [(1, 5)] 2 true = ([(1, 5)], []) :=
  ⟨by decide, remove_unregistered_noop [(1, 5)] 2 true (by decide)⟩

/-- Claim C4: removing a registered object disposes its persistent handle,
erases the mapping, and then runs the callback — the returned trace is
literally the handle disposal followed (when the callback is non-null) by
exactly one destruction of the object, and a subsequent `find` on the
erased table is empty. -/
theorem remove_registered_spec (m : Objects) (p : Ptr) (h : Handle) (d : Bool)
    (hreg : lookupKey m p = some h) (hnd : keysNodup m) :
    object_registry.remove m p d
      = (eraseKey m p, Event.dispose h :: if d then [Event.destroy p] else [])
    ∧ object_registry.find (eraseKey m p) p = none
    ∧ countDestroy (Event.dispose h :: if d then [Event.destroy p] else []) p
        = (if d then 1 else 0) := by
  refine ⟨?_, ?_, ?_⟩
  · unfold object_registry.remove
    rw [hreg]
  · rw [object_registry_find_eq]
    exact lookupKey_eraseKey_self m p hnd
  · cases d <;> simp [countDestroy]

/-- Claim C4, witness: removing object 1 (handle 5) from the singleton table
disposes handle 5 and then destroys object 1. -/
theorem remove_registered_spec_witness :
    lookupKey ([((1 : Ptr), (5 : Handle))] : Objects) 1 = some 5
    ∧ object_registry.remove [(1, 5)] 1 true
        = (eraseKey [(1, 5)] 1, Event.dispose 5 :: if true then [Event.destroy 1] else []) :=
  ⟨by decide, (remove_registered_spec [(1, 5)] 1 5 true (by decide) (by decide)).1⟩

theorem remove_all_nil (d : Bool) : object_registry.remove_all [] d = ([], []) := by
  rw [object_registry.remove_all]

theorem remove_all_cons (p : Ptr) (h : Handle) (rest : Objects) (d : Bool) :
    object_registry.remove_all ((p, h) :: rest) d
      = ((object_registry.remove_all rest d).1,
         (Event.dispose h :: if d then [Event.destroy p] else [])
           ++ (object_registry.remove_all rest d).2) := by
  rw [object_registry.remove_all]
  simp only [object_registry.remove, lookupKey, if_pos rfl, if_true, eraseKey]

theorem countDestroy_append (l1 l2 : List Event) (p : Ptr) :
    countDestroy (l1 ++ l2) p = countDestroy l1 p + countDestroy l2 p := by
  induction l1 with
  | nil => simp [countDestroy]
  | cons e rest ih =>
    cases e with
    | dispose h => simpa [countDestroy] using ih
    | destroy q =>
      simp [countDestroy, ih, Nat.add_assoc]

theorem countDestroy_drainTrace_not_mem (m : Objects) (d : Bool) (p : Ptr)
    (hout : p ∉ m.map Prod.fst) : countDestroy (drainTrace m d) p = 0 := by
  induction m with
  | nil => rfl
  | cons e rest ih =>
    obtain ⟨q, h⟩ := e
    rw [List.map_cons, List.mem_cons] at hout
    push_neg at hout
    have hqp : q ≠ p := fun hh => hout.1 hh.symm
    cases d with
    | false => simpa [drainTrace, countDestroy] using ih hout.2
    | true => simp [drainTrace, countDestroy, countDestroy_append, hqp, ih hout.2]

theorem countDestroy_drainTrace_mem (m : Objects) (d : Bool) (p : Ptr)
    (hnd : keysNodup m) (hp : p ∈ m.map Prod.fst) :
    countDestroy (drainTrace m d) p = if d then 1 else 0 := by
  induction m with
  | nil => simp at hp
  | cons e rest ih =>
    obtain ⟨q, h⟩ := e
    have hnd1 : q ∉ rest.map Prod.fst := (List.nodup_cons.1 hnd).1
    have hnd2 : keysNodup rest := (List.nodup_cons.1 hnd).2
    rw [List.map_cons, List.mem_cons] at hp
    rcases hp with hpq | hpr
    · subst hpq
      have h0 : countDestroy (drainTrace rest d) p = 0 :=
        countDestroy_drainTrace_not_mem rest d p hnd1
      cases d <;> simp [drainTrace, countDestroy, countDestroy_append, h0]
    · have hqp : q ≠ p := fun hh => hnd1 (hh ▸ hpr)
      cases d <;> simp [drainTrace, countDestroy, countDestroy_append, hqp, ih hnd2 hpr]

theorem remove_all_drains (m : Objects) (d : Bool) :
    object_registry.remove_all m d = ([], drainTrace m d) := by
  induction m with
  | nil =>
    rw [remove_all_nil]
    rfl
  | cons e rest ih =>
    obtain ⟨p, h⟩ := e
    rw [remove_all_cons, ih]
    simp [drainTrace]

/-- Claim C9: converting a null C string pointer yields the empty script
string — a value, not a failure (the embedded conversion is total) — and
converting a non-null pointer yields the script string of the pointed-to
characters. -/
theorem to_v8_c_str_spec :
    to_v8_c_str none = SVal.str "" ∧ ∀ s, to_v8_c_str (some s) = SVal.str s :=
  ⟨rfl, fun _ => rfl⟩

/-- Claim C10: under the global-table strategy, `remove` erases the object
from the per-type instances set unconditionally, before consulting the main
table — so afterwards the identity is absent from that set even when the
object had no entry in the main table and the call changed neither the
table nor the event trace. -/
theorem global_remove_erases_instance (s : GlobalState) (τ : TypeTag) (p : Ptr) (d : Bool)
    (hnd : (s.instances τ).Nodup) :
    p ∉ (global_registry.remove s τ p d).1.instances τ
    ∧ (lookupKey s.global_registry_objects p = none →
        (global_registry.remove s τ p d).1.global_registry_objects
            = s.global_registry_objects
        ∧ (global_registry.remove s τ p d).2 = []) := by
  have hinst : (global_registry.remove s τ p d).1.instances τ
      = setErase (s.instances τ) p := by
    unfold global_registry.remove
    cases lookupKey s.global_registry_objects p <;> simp
  refine ⟨?_, ?_⟩
  · rw [hinst]
    exact not_mem_setErase_self _ _ hnd
  · intro hmiss
    unfold global_registry.remove
    rw [hmiss]
    exact ⟨rfl, rfl⟩

/-- Claim C10, witness: removing object 1 of type 0 when the main table is
empty still clears it from the instances set of type 0. -/
theorem global_remove_erases_instance_witness :
    ((GlobalState.mk [] fun τ2 => if τ2 = 0 then [1] else []).instances 0).Nodup
    ∧ 1 ∉ (global_registry.remove
        (GlobalState.mk [] fun τ2 => if τ2 = 0 then [1] else []) 0 1 true).1.instances 0 :=
  ⟨by decide,
   (global_remove_erases_instance
     (GlobalState.mk [] fun τ2 => if τ2 = 0 then [1] else []) 0 1 true (by decide)).1⟩

theorem V8Array_get_set_self (a : V8Array) (i : Nat) (v : SVal) :
    (a.set i v).get i = some v := by
  simp [V8Array.set, V8Array.get, lookupKey]

theorem V8Array_get_set_ne (a : V8Array) (i j : Nat) (v : SVal) (hne : j ≠ i) :
    (a.set i v).get j = a.get j := by
  simp [V8Array.set, V8Array.get, lookupKey, Ne.symm hne]

theorem to_v8_range_loop_len {α : Type} (conv : α → SVal) :
    ∀ (l : List α) (a : V8Array) (idx : Nat), idx + l.length ≤ a.len →
      (to_v8_range_loop conv a idx l).len = a.len := by
  intro l
  induction l with
  | nil =>
    intro a idx hb
    rfl
  | cons x xs ih =>
    intro a idx hb
    rw [List.length_cons] at hb
    have hsl : (a.set idx (conv x)).len = a.len := by
      simp only [V8Array.set]
      omega
    rw [to_v8_range_loop, ih (a.set idx (conv x)) (idx + 1) (by rw [hsl]; omega), hsl]

theorem to_v8_range_loop_get {α : Type} (conv : α → SVal) :
    ∀ (l : List α) (a : V8Array) (idx i : Nat),
      (to_v8_range_loop conv a idx l).get i
        = if idx ≤ i ∧ i < idx + l.length then (l[i - idx]?).map conv else a.get i := by
  intro l
  induction l with
  | nil =>
    intro a idx i
    have hc : ¬ (idx ≤ i ∧ i < idx + ([] : List α).length) := by
      simp only [List.length_nil, Nat.add_zero]
      omega
    rw [to_v8_range_loop, if_neg hc]
  | cons x xs ih =>
    intro a idx i
    rw [to_v8_range_loop, ih]
    by_cases h1 : idx + 1 ≤ i ∧ i < idx + 1 + xs.length
    · rw [if_pos h1,
        if_pos ⟨by omega, by simp only [List.length_cons]; omega⟩]
      have hid : i - idx = (i - (idx + 1)) + 1 := by omega
      rw [hid, List.getElem?_cons_succ]
    · rw [if_neg h1]
      by_cases h2 : i = idx
      · subst h2
        rw [V8Array_get_set_self,
          if_pos ⟨Nat.le_refl i, by simp only [List.length_cons]; omega⟩,
          Nat.sub_self, List.getElem?_cons_zero]
        rfl
      · have hc : ¬ (idx ≤ i ∧ i < idx + (x :: xs).length) := by
          simp only [List.length_cons]
          intro hcc
          exact h1 ⟨by omega, by omega⟩
        rw [V8Array_get_set_ne a idx i (conv x) h2, if_neg hc]

/-- Claim C7: converting a random-access range of length n yields an array
pre-sized to n whose element at integer index i is the conversion of the
i-th element in traversal order; in particular the vector of the 32-bit
integers 1, 2, 3 converts to an array of length 3 holding the converted
1, 2, 3 at indices 0, 1, 2. -/
theorem to_v8_vector_spec {α : Type} (conv : α → SVal) (l : List α) :
    (to_v8_vector conv l).len = l.length
    ∧ (∀ i, (to_v8_vector conv l).get i = (l[i]?).map conv)
    ∧ (to_v8_vector to_v8_int32 [1, 2, 3]).len = 3
    ∧ (to_v8_vector to_v8_int32 [1, 2, 3]).get 0 = some (SVal.int32 1)
    ∧ (to_v8_vector to_v8_int32 [1, 2, 3]).get 1 = some (SVal.int32 2)
    ∧ (to_v8_vector to_v8_int32 [1, 2, 3]).get 2 = some (SVal.int32 3) := by
  refine ⟨?_, ?_, rfl, rfl, rfl, rfl⟩
  · exact to_v8_range_loop_len conv l (V8Array.new l.length) 0 (by simp [V8Array.new])
  · intro i
    unfold to_v8_vector to_v8_range
    rw [to_v8_range_loop_get]
    by_cases hi : i < l.length
    · rw [if_pos ⟨Nat.zero_le i, by omega⟩, Nat.sub_zero]
    · rw [if_neg (by omega), List.getElem?_eq_none (by omega)]
      rfl

theorem V8Object_get_set_self (o : V8Object) (k v : SVal) :
    (o.set k v).get k = some v := by
  simp [V8Object.set, V8Object.get, lookupKey]

theorem V8Object_get_set_ne (o : V8Object) (k q v : SVal) (hne : q ≠ k) :
    (o.set k v).get q = o.get q := by
  simp [V8Object.set, V8Object.get, lookupKey, Ne.symm hne]

theorem to_v8_map_loop_get {κ ν : Type} (ck : κ → SVal) (cv : ν → SVal) :
    ∀ (l : List (κ × ν)) (o : V8Object) (q : SVal),
      (to_v8_map_loop ck cv o l).get q
        = match l.reverse.find? (fun e => decide (ck e.1 = q)) with
          | some e => some (cv e.2)
          | none => o.get q := by
  intro l
  induction l with
  | nil =>
    intro o q
    rfl
  | cons e rest ih =>
    obtain ⟨k0, v0⟩ := e
    intro o q
    rw [to_v8_map_loop, ih, List.reverse_cons, List.find?_append]
    cases hr : rest.reverse.find? (fun e => decide (ck e.1 = q)) with
    | some e1 => simp
    | none =>
      simp only [Option.none_or]
      by_cases hq : ck k0 = q
      · subst hq
        simp [List.find?, V8Object_get_set_self]
      · simp [List.find?, hq,
          V8Object_get_set_ne o (ck k0) q (cv v0) (fun hh => hq hh.symm)]

/-- Claim C8: converting an ordered mapping iterated in key order yields an
object where each iterated pair stores the property conversion-of-key to
conversion-of-value, and when two distinct keys convert to the same
property name the later-iterated pair wins (`lastWins`); the two-entry
string-to-int mapping of a to 1 and b to 2 converts to an object holding
exactly the properties a to 1 and b to 2. -/
theorem to_v8_map_spec {κ ν : Type} (ck : κ → SVal) (cv : ν → SVal) (l : List (κ × ν)) :
    (∀ q, (to_v8_map ck cv l).get q = lastWins ck cv l q)
    ∧ to_v8_map to_v8_string to_v8_int32 [("a", 1), ("b", 2)]
        = V8Object.mk [(SVal.str "b", SVal.int32 2), (SVal.str "a", SVal.int32 1)]
    ∧ (to_v8_map to_v8_string to_v8_int32 [("a", 1), ("b", 2)]).get (SVal.str "a")
        = some (SVal.int32 1)
    ∧ (to_v8_map to_v8_string to_v8_int32 [("a", 1), ("b", 2)]).get (SVal.str "b")
        = some (SVal.int32 2) := by
  refine ⟨?_, by decide, by decide, by decide⟩
  intro q
  unfold to_v8_map lastWins
  rw [to_v8_map_loop_get]
  cases hf : l.reverse.find? (fun e => decide (ck e.1 = q)) with
  | none => rfl
  | some e => rfl

/-!
Equivalence of the two registry storage strategies: a simulation argument.
-/

theorem SimInv_init (t : Ptr → TypeTag) : SimInv t (fun _ => []) GlobalState.init :=
  ⟨fun _ => rfl, fun _ _ _ => rfl, List.nodup_nil, fun _ => List.nodup_nil⟩

theorem SimInv_add (t : Ptr → TypeTag) (sp : TypeTag → Objects) (sg : GlobalState)
    (hinv : SimInv t sp sg) (p : Ptr) (h : Handle) :
    SimInv t
      (fun τ2 => if τ2 = t p then object_registry.add (sp (t p)) p h else sp τ2)
      (global_registry.add sg (t p) p h) := by
  obtain ⟨h1, h2, h3, h4⟩ := hinv
  have hsg1 : (global_registry.add sg (t p) p h).global_registry_objects
      = insertPair sg.global_registry_objects p h := rfl
  refine ⟨?_, ?_, ?_, ?_⟩
  · intro q
    rw [hsg1]
    simp only []
    by_cases hqp : q = p
    · rw [hqp, if_pos rfl]
      unfold object_registry.add
      rw [lookupKey_insertPair_self, lookupKey_insertPair_self, h1 p]
    · rw [lookupKey_insertPair_ne _ _ _ _ hqp]
      by_cases hτq : t q = t p
      · rw [if_pos hτq]
        unfold object_registry.add
        rw [lookupKey_insertPair_ne _ _ _ _ hqp, h1 q, hτq]
      · rw [if_neg hτq]
        exact h1 q
  · intro τ q hτ
    simp only []
    by_cases hτtp : τ = t p
    · subst hτtp
      rw [if_pos rfl]
      unfold object_registry.add
      have hqp : q ≠ p := fun hh => hτ (congrArg t hh).symm
      rw [lookupKey_insertPair_ne _ _ _ _ hqp]
      exact h2 _ q hτ
    · rw [if_neg hτtp]
      exact h2 τ q hτ
  · rw [hsg1]
    exact keysNodup_insertPair _ _ _ h3
  · intro τ
    simp only []
    by_cases hτtp : τ = t p
    · subst hτtp
      rw [if_pos rfl]
      exact keysNodup_insertPair _ _ _ (h4 _)
    · rw [if_neg hτtp]
      exact h4 τ

theorem SimInv_remove (t : Ptr → TypeTag) (sp : TypeTag → Objects) (sg : GlobalState)
    (hinv : SimInv t sp sg) (p : Ptr) (d : Bool) :
    SimInv t
      (fun τ2 => if τ2 = t p then (object_registry.remove (sp (t p)) p d).1 else sp τ2)
      (global_registry.remove sg (t p) p d).1 := by
  obtain ⟨h1, h2, h3, h4⟩ := hinv
  cases hl : lookupKey sg.global_registry_objects p with
  | none =>
    have hlp : lookupKey (sp (t p)) p = none := by
      rw [← h1 p]
      exact hl
    have hsp : (object_registry.remove (sp (t p)) p d).1 = sp (t p) := by
      simp [object_registry.remove, hlp]
    have hsg1 : (global_registry.remove sg (t p) p d).1.global_registry_objects
        = sg.global_registry_objects := by
      simp [global_registry.remove, hl]
    refine ⟨?_, ?_, ?_, ?_⟩
    · intro q
      rw [hsg1]
      simp only []
      by_cases hτq : t q = t p
      · rw [if_pos hτq, hsp, h1 q, hτq]
      · rw [if_neg hτq]
        exact h1 q
    · intro τ q hτ
      simp only []
      by_cases hτtp : τ = t p
      · subst hτtp
        rw [if_pos rfl, hsp]
        exact h2 _ q hτ
      · rw [if_neg hτtp]
        exact h2 τ q hτ
    · rw [hsg1]
      exact h3
    · intro τ
      simp only []
      by_cases hτtp : τ = t p
      · subst hτtp
        rw [if_pos rfl, hsp]
        exact h4 _
      · rw [if_neg hτtp]
        exact h4 τ
  | some h0 =>
    have hlp : lookupKey (sp (t p)) p = some h0 := by
      rw [← h1 p]
      exact hl
    have hsp : (object_registry.remove (sp (t p)) p d).1 = eraseKey (sp (t p)) p := by
      simp [object_registry.remove, hlp]
    have hsg1 : (global_registry.remove sg (t p) p d).1.global_registry_objects
        = eraseKey sg.global_registry_objects p := by
      simp [global_registry.remove, hl]
    refine ⟨?_, ?_, ?_, ?_⟩
    · intro q
      rw [hsg1]
      simp only []
      by_cases hqp : q = p
      · rw [hqp, if_pos rfl, hsp, lookupKey_eraseKey_self _ _ h3,
          lookupKey_eraseKey_self _ _ (h4 _)]
      · rw [lookupKey_eraseKey_ne _ _ _ hqp]
        by_cases hτq : t q = t p
        · rw [if_pos hτq, hsp, lookupKey_eraseKey_ne _ _ _ hqp, h1 q, hτq]
        · rw [if_neg hτq]
          exact h1 q
    · intro τ q hτ
      simp only []
      by_cases hτtp : τ = t p
      · subst hτtp
        rw [if_pos rfl, hsp]
        have hqp : q ≠ p := fun hh => hτ (congrArg t hh).symm
        rw [lookupKey_eraseKey_ne _ _ _ hqp]
        exact h2 _ q hτ
      · rw [if_neg hτtp]
        exact h2 τ q hτ
    · rw [hsg1]
      exact keysNodup_eraseKey _ _ h3
    · intro τ
      simp only []
      by_cases hτtp : τ = t p
      · subst hτtp
        rw [if_pos rfl, hsp]
        exact keysNodup_eraseKey _ _ (h4 _)
      · rw [if_neg hτtp]
        exact h4 τ

theorem remove_events_eq (t : Ptr → TypeTag) (sp : TypeTag → Objects) (sg : GlobalState)
    (hinv : SimInv t sp sg) (p : Ptr) (d : Bool) :
    (object_registry.remove (sp (t p)) p d).2 = (global_registry.remove sg (t p) p d).2 := by
  obtain ⟨h1, _, _, _⟩ := hinv
  cases hl : lookupKey sg.global_registry_objects p with
  | none =>
    have hlp : lookupKey (sp (t p)) p = none := by
      rw [← h1 p]
      exact hl
    simp [object_registry.remove, global_registry.remove, hl, hlp]
  | some h0 =>
    have hlp : lookupKey (sp (t p)) p = some h0 := by
      rw [← h1 p]
      exact hl
    simp [object_registry.remove, global_registry.remove, hl, hlp]

theorem run_equiv (t : Ptr → TypeTag) :
    ∀ (ops : List Op) (sp : TypeTag → Objects) (sg : GlobalState),
      SimInv t sp sg → (∀ op ∈ ops, op.tag = t op.ptr) →
      runPerType sp ops = runGlobal sg ops := by
  intro ops
  induction ops with
  | nil =>
    intro sp sg hinv hc
    rfl
  | cons op rest ih =>
    intro sp sg hinv hc
    have hop : op.tag = t op.ptr := hc op (List.mem_cons_self op rest)
    have hrest : ∀ o ∈ rest, o.tag = t o.ptr := fun o ho => hc o (List.mem_cons_of_mem op ho)
    cases op with
    | addOp τ p h =>
      simp only [Op.tag, Op.ptr] at hop
      subst hop
      simp only [runPerType, runGlobal]
      exact ih _ _ (SimInv_add t sp sg hinv p h) hrest
    | removeOp τ p d =>
      simp only [Op.tag, Op.ptr] at hop
      subst hop
      simp only [runPerType, runGlobal]
      rw [ih _ _ (SimInv_remove t sp sg hinv p d) hrest,
        remove_events_eq t sp sg hinv p d]
    | findOp τ p =>
      simp only [Op.tag, Op.ptr] at hop
      subst hop
      simp only [runPerType, runGlobal]
      rw [ih sp sg hinv hrest, object_registry_find_eq, global_registry_find_eq,
        hinv.1 p]

/-- Claim C2: the two storage strategies are observably identical for every
sequence of add, remove and find operations — including sequences touching
several distinct class types — producing the same `find` results and the
same dispose and destroy event traces, provided the sequence is consistent
with a type assignment `t` giving each object identity one class type (the
identity model of the data model, where an identity denotes exactly one
native instance). -/
theorem strategies_observably_equal (ops : List Op) (t : Ptr → TypeTag)
    (hc : ∀ op ∈ ops, op.tag = t op.ptr) :
    runPerType (fun _ => []) ops = runGlobal GlobalState.init ops :=
  run_equiv t ops (fun _ => []) GlobalState.init (SimInv_init t) hc

/-- Claim C2, witness: a six-operation run registering, querying and
removing objects of two distinct class types produces identical
observations under both strategies. -/
theorem strategies_observably_equal_witness :
    (∀ op ∈ [Op.addOp 0 10 100, Op.addOp 1 11 101, Op.findOp 0 10, Op.findOp 1 11,
        Op.removeOp 0 10 true, Op.findOp 0 10],
      op.tag = (fun p => p - 10) op.ptr)
    ∧ runPerType (fun _ => [])
        [Op.addOp 0 10 100, Op.addOp 1 11 101, Op.findOp 0 10, Op.findOp 1 11,
          Op.removeOp 0 10 true, Op.findOp 0 10]
      = runGlobal GlobalState.init
        [Op.addOp 0 10 100, Op.addOp 1 11 101, Op.findOp 0 10, Op.findOp 1 11,
          Op.removeOp 0 10 true, Op.findOp 0 10] :=
  ⟨by decide,
   strategies_observably_equal
     [Op.addOp 0 10 100, Op.addOp 1 11 101, Op.findOp 0 10, Op.findOp 1 11,
       Op.removeOp 0 10 true, Op.findOp 0 10]
     (fun p => p - 10) (by decide)⟩

/-!
Draining the registry under the global-table strategy.
-/

theorem mem_keys_eraseKey_ne {α β : Type} [DecidableEq α] (m : AssocMap α β) (k q : α)
    (hne : q ≠ k) : q ∈ (eraseKey m k).map Prod.fst ↔ q ∈ m.map Prod.fst := by
  rw [← lookupKey_isSome_iff_mem, ← lookupKey_isSome_iff_mem,
    lookupKey_eraseKey_ne _ _ _ hne]

theorem not_mem_keys_eraseKey_self {α β : Type} [DecidableEq α] (m : AssocMap α β) (k : α)
    (hnd : keysNodup m) : k ∉ (eraseKey m k).map Prod.fst := by
  intro hmem
  have hs := (lookupKey_isSome_iff_mem _ _).2 hmem
  rw [lookupKey_eraseKey_self _ _ hnd] at hs
  cases hs

theorem global_remove_instances (s : GlobalState) (τ : TypeTag) (p : Ptr) (d : Bool) :
    (global_registry.remove s τ p d).1.instances τ = setErase (s.instances τ) p := by
  unfold global_registry.remove
  cases lookupKey s.global_registry_objects p <;> simp

theorem global_remove_all_eq_nil (s : GlobalState) (τ : TypeTag) (d : Bool)
    (hi : s.instances τ = []) : global_registry.remove_all s τ d = (s, []) := by
  rw [global_registry.remove_all]
  split
  · rfl
  · next p rest hcons =>
    rw [hi] at hcons
    cases hcons

theorem global_remove_all_eq_cons (s : GlobalState) (τ : TypeTag) (d : Bool) (p : Ptr)
    (rest : List Ptr) (hi : s.instances τ = p :: rest) :
    global_registry.remove_all s τ d
      = ((global_registry.remove_all (global_registry.remove s τ p d).1 τ d).1,
         (global_registry.remove s τ p d).2
           ++ (global_registry.remove_all (global_registry.remove s τ p d).1 τ d).2) := by
  rw [global_registry.remove_all]
  split
  · next hnil =>
    rw [hi] at hnil
    cases hnil
  · next p2 rest2 hcons =>
    rw [hi] at hcons
    injection hcons with hp hr
    subst hp
    rfl

theorem global_remove_all_drains (τ : TypeTag) (d : Bool) :
    ∀ (n : Nat) (s : GlobalState), (s.instances τ).length = n →
      (s.instances τ).Nodup → keysNodup s.global_registry_objects →
      (∀ q, q ∈ s.instances τ ↔ q ∈ s.global_registry_objects.map Prod.fst) →
      (global_registry.remove_all s τ d).1.instances τ = []
      ∧ (global_registry.remove_all s τ d).1.global_registry_objects = []
      ∧ (∀ p, p ∈ s.instances τ →
          countDestroy (global_registry.remove_all s τ d).2 p = if d then 1 else 0)
      ∧ (∀ p, p ∉ s.instances τ →
          countDestroy (global_registry.remove_all s τ d).2 p = 0) := by
  intro n
  induction n with
  | zero =>
    intro s hn hnd1 hnd2 hcov
    have hi : s.instances τ = [] := List.length_eq_zero.1 hn
    have hg : s.global_registry_objects = [] := by
      cases hgc : s.global_registry_objects with
      | nil => rfl
      | cons e r2 =>
        exfalso
        have hm : e.1 ∈ s.global_registry_objects.map Prod.fst := by
          rw [hgc]
          simp
        have hm2 := (hcov e.1).2 hm
        rw [hi] at hm2
        cases hm2
    rw [global_remove_all_eq_nil s τ d hi]
    refine ⟨hi, hg, ?_, ?_⟩
    · intro p hp
      rw [hi] at hp
      cases hp
    · intro p hp
      rfl
  | succ n ih =>
    intro s hn hnd1 hnd2 hcov
    cases hi : s.instances τ with
    | nil =>
      rw [hi] at hn
      cases hn
    | cons p rest =>
      have hpmem : p ∈ s.global_registry_objects.map Prod.fst :=
        (hcov p).1 (by rw [hi]; exact List.mem_cons_self _ _)
      have hsome : (lookupKey s.global_registry_objects p).isSome = true :=
        (lookupKey_isSome_iff_mem _ _).2 hpmem
      obtain ⟨h0, hl⟩ : ∃ h0, lookupKey s.global_registry_objects p = some h0 := by
        cases hh : lookupKey s.global_registry_objects p with
        | none =>
          rw [hh] at hsome
          cases hsome
        | some w => exact ⟨w, rfl⟩
      have hinst2 : (global_registry.remove s τ p d).1.instances τ = rest := by
        rw [global_remove_instances, hi]
        simp [setErase]
      have hglob2 : (global_registry.remove s τ p d).1.global_registry_objects
          = eraseKey s.global_registry_objects p := by
        simp [global_registry.remove, hl]
      have hevs : (global_registry.remove s τ p d).2
          = Event.dispose h0 :: if d then [Event.destroy p] else [] := by
        simp [global_registry.remove, hl]
      have hpnotin : p ∉ rest := (List.nodup_cons.1 (hi ▸ hnd1)).1
      have hnd1b : ((global_registry.remove s τ p d).1.instances τ).Nodup := by
        rw [hinst2]
        exact (List.nodup_cons.1 (hi ▸ hnd1)).2
      have hnd2b : keysNodup (global_registry.remove s τ p d).1.global_registry_objects := by
        rw [hglob2]
        exact keysNodup_eraseKey _ _ hnd2
      have hcovb : ∀ q, q ∈ (global_registry.remove s τ p d).1.instances τ ↔
          q ∈ (global_registry.remove s τ p d).1.global_registry_objects.map Prod.fst := by
        intro q
        rw [hinst2, hglob2]
        by_cases hqp : q = p
        · subst hqp
          constructor
          · intro hq
            exact absurd hq hpnotin
          · intro hq
            exact absurd hq (not_mem_keys_eraseKey_self _ _ hnd2)
        · rw [mem_keys_eraseKey_ne _ _ _ hqp]
          constructor
          · intro hq
            exact (hcov q).1 (by rw [hi]; exact List.mem_cons_of_mem _ hq)
          · intro hq
            have hq2 := (hcov q).2 hq
            rw [hi] at hq2
            rcases List.mem_cons.1 hq2 with hc | hc
            · exact absurd hc hqp
            · exact hc
      have hlen : ((global_registry.remove s τ p d).1.instances τ).length = n := by
        rw [hinst2]
        rw [hi, List.length_cons] at hn
        omega
      obtain ⟨ha, hb, hcnt, hcnt0⟩ :=
        ih (global_registry.remove s τ p d).1 hlen hnd1b hnd2b hcovb
      rw [global_remove_all_eq_cons s τ d p rest hi]
      refine ⟨ha, hb, ?_, ?_⟩
      · intro q hq
        rw [countDestroy_append, hevs]
        rcases List.mem_cons.1 hq with hqp | hqr
        · subst hqp
          have hz : countDestroy
              (global_registry.remove_all (global_registry.remove s τ q d).1 τ d).2 q = 0 :=
            hcnt0 q (by rw [hinst2]; exact hpnotin)
          rw [hz]
          cases d <;> simp [countDestroy]
        · have hqp : q ≠ p := fun hh => hpnotin (hh ▸ hqr)
          rw [hcnt q (by rw [hinst2]; exact hqr)]
          cases d <;> simp [countDestroy, Ne.symm hqp]
      · intro q hq
        rw [countDestroy_append, hevs]
        have hqp : q ≠ p := fun hh => hq (by rw [hh]; exact List.mem_cons_self _ _)
        have hqr : q ∉ rest := fun hr => hq (List.mem_cons_of_mem _ hr)
        rw [hcnt0 q (by rw [hinst2]; exact hqr)]
        cases d <;> simp [countDestroy, Ne.symm hqp]

/-- Claim C5: `remove_all` leaves the registry empty and its trace disposes
the handle of each entry and then (for a non-null callback) destroys that
entry, one entry at a time, so every object registered at call start is
destroyed exactly once, after its handle disposal.  Stated for both storage
strategies: the per-type table drains front to back (`drainTrace` exhibits
the per-entry dispose-then-destroy ordering); the global-table strategy
drains the instances set of the type, with the same counts, for every state
whose table entries are exactly the instances of that type. -/
theorem remove_all_spec (m : Objects) (s : GlobalState) (τ : TypeTag) (d : Bool)
    (hnd : keysNodup m)
    (hnd1 : (s.instances τ).Nodup) (hnd2 : keysNodup s.global_registry_objects)
    (hcov : ∀ q, q ∈ s.instances τ ↔ q ∈ s.global_registry_objects.map Prod.fst) :
    (object_registry.remove_all m d = ([], drainTrace m d)
      ∧ ∀ p, p ∈ m.map Prod.fst → countDestroy (drainTrace m d) p = if d then 1 else 0)
    ∧ ((global_registry.remove_all s τ d).1.instances τ = []
      ∧ (global_registry.remove_all s τ d).1.global_registry_objects = []
      ∧ ∀ p, p ∈ s.instances τ →
          countDestroy (global_registry.remove_all s τ d).2 p = if d then 1 else 0) := by
  obtain ⟨ha, hb, hcnt, _⟩ :=
    global_remove_all_drains τ d (s.instances τ).length s rfl hnd1 hnd2 hcov
  exact ⟨⟨remove_all_drains m d,
    fun p hp => countDestroy_drainTrace_mem m d p hnd hp⟩, ha, hb, hcnt⟩

/-- Claim C5, witness: draining a two-entry per-type table empties it with
the two dispose-then-destroy pairs in order, simultaneously with a
one-entry global-strategy state. -/
theorem remove_all_spec_witness :
    keysNodup ([((1 : Ptr), (5 : Handle)), (2, 7)] : Objects)
    ∧ ((GlobalState.mk [(3, 9)] fun τ2 => if τ2 = 0 then [3] else []).instances 0).Nodup
    ∧ keysNodup (GlobalState.mk [(3, 9)]
        fun τ2 => if τ2 = 0 then [3] else []).global_registry_objects
    ∧ object_registry.remove_all [(1, 5), (2, 7)] true
        = ([], drainTrace [(1, 5), (2, 7)] true) :=
  ⟨by decide, by decide, by decide,
   (remove_all_spec [(1, 5), (2, 7)]
     (GlobalState.mk [(3, 9)] fun τ2 => if τ2 = 0 then [3] else []) 0 true
     (by decide) (by decide) (by decide) (fun q => Iff.rfl)).1.1⟩

end V8pp
